import Mathlib

/-!
Shallow embedding of the sentence-miner mining pipeline
(src/api.py and src/pipeline/{furigana,nlp,frequency,dictionary,anki}.py).

Python strings are embedded as lists of Unicode code points (`List Char`),
Python sets as duplicate-free lists with membership-checked insertion, and the
remote AnkiConnect store as explicit data handed to the modelled functions.
-/

namespace SentenceMiner

/-- A Python string: a finite sequence of Unicode code points. -/
abbrev Str := List Char

/-- Concatenation of a list of strings (Python `''.join(parts)`). -/
def cat (parts : List Str) : Str := parts.foldr (fun s acc => s ++ acc) []

/-- `furigana._is_kana`: hiragana or katakana, i.e. U+3040 ≤ ch ≤ U+30FF. -/
def is_kana (ch : Char) : Bool := 0x3040 ≤ ch.toNat && ch.toNat ≤ 0x30ff

/-- `furigana._has_kanji` (same test as `nlp._has_kanji`): at least one CJK
ideograph, in the main block U+4E00..U+9FFF or extension A U+3400..U+4DBF. -/
def has_kanji (text : Str) : Bool :=
  text.any fun ch =>
    (0x4e00 ≤ ch.toNat && ch.toNat ≤ 0x9fff) || (0x3400 ≤ ch.toNat && ch.toNat ≤ 0x4dbf)

/-- `utils.kata_to_hira`: shift katakana code points U+30A1..U+30F6 down by 0x60. -/
def kata_to_hira (text : Str) : Str :=
  text.map fun ch =>
    if 0x30A1 ≤ ch.toNat && ch.toNat ≤ 0x30F6 then Char.ofNat (ch.toNat - 0x60) else ch

/-- Python `s.startswith(p)`. -/
def py_startswith (s p : Str) : Bool := decide (s.take p.length = p)

/-- `furigana._kana_tail_len`: count of trailing kana characters of `text`. -/
def kana_tail_len (text : Str) : Nat := (text.reverse.takeWhile is_kana).length

/-- `furigana.correct_surface_reading`: correct the SudachiPy surface reading
using the Jitendex lemma reading (src/pipeline/furigana.py lines 34-66).
The stem lengths are Python ints, so they are `Int` here. -/
def correct_surface_reading (surface lemma_form sudachi_surface_reading
    sudachi_lemma_reading jitendex_lemma_reading : Str) : Str :=
  if jitendex_lemma_reading = [] ∨ sudachi_lemma_reading = [] then
    sudachi_surface_reading
  else if sudachi_lemma_reading = jitendex_lemma_reading then
    sudachi_surface_reading
  else
    let tail := kana_tail_len lemma_form
    let sudachi_stem_len : Int := (sudachi_lemma_reading.length : Int) - (tail : Int)
    let jitendex_stem_len : Int := (jitendex_lemma_reading.length : Int) - (tail : Int)
    if sudachi_stem_len ≤ 0 ∨ jitendex_stem_len ≤ 0 then
      sudachi_surface_reading
    else
      let wrong_stem := sudachi_lemma_reading.take sudachi_stem_len.toNat
      let correct_stem := jitendex_lemma_reading.take jitendex_stem_len.toNat
      if ¬ py_startswith sudachi_surface_reading wrong_stem then
        sudachi_surface_reading
      else
        correct_stem ++ sudachi_surface_reading.drop wrong_stem.length

/-- One kana-position reading step of `_align_furigana` (furigana.py lines
143-144): consume the head of the remaining reading iff it matches the kana. -/
def consume_kana (ch : Char) : Str → Str
  | [] => []
  | r :: rs => if r = ch then rs else r :: rs

/-- `furigana._align_furigana`, written as one structural pass over the written
form.  `pend` carries the current maximal run of non-kana characters, reversed
(`none` = not inside a run).  When the kana anchor that follows a run is
reached, the run's segment and the anchor's own kana segment are emitted
together — exactly one kanji-branch iteration of the source's while loop
followed by the kana-branch iteration that the loop performs next.  The
anchor search models `reading.find(next_kana, r_pos + 1)` relative to the
remaining reading. -/
def alignGo (pend : Option Str) : Str → Str → List (Str × Str)
  | [], reading =>
    match pend with
    | none => []
    | some run => [(run.reverse, reading)]
  | ch :: rest, reading =>
    match pend with
    | none =>
      if is_kana ch then
        ([ch], []) :: alignGo none rest (consume_kana ch reading)
      else
        alignGo (some [ch]) rest reading
    | some run =>
      if is_kana ch then
        match (reading.drop 1).findIdx? (fun c => c == ch) with
        | none =>
          (run.reverse, reading) :: ([ch], []) :: alignGo none rest (consume_kana ch [])
        | some i =>
          (run.reverse, reading.take (i + 1)) :: ([ch], [])
            :: alignGo none rest (consume_kana ch (reading.drop (i + 1)))
      else
        alignGo (some (ch :: run)) rest reading

/-- `furigana._align_furigana(lemma, reading)`. -/
def align_furigana (lemma_form reading : Str) : List (Str × Str) :=
  alignGo none lemma_form reading

/-- `furigana.expression_furigana`: plain Anki furigana format, e.g.
食[た]べる (furigana.py lines 178-197). -/
def expression_furigana (lemma_form reading : Str) : Str :=
  if ¬ has_kanji lemma_form then lemma_form
  else
    cat ((align_furigana lemma_form reading).map fun seg =>
      if seg.2 ≠ [] then seg.1 ++ '[' :: seg.2 ++ [']'] else seg.1)

/-- `furigana._html_escape`.  The source applies three sequential `replace`
calls (& then < then >); since no replacement string contains a character
replaced later, this equals the single character-wise pass embedded here. -/
def html_escape (text : Str) : Str :=
  text.flatMap fun ch =>
    if ch = '&' then "&amp;".data
    else if ch = '<' then "&lt;".data
    else if ch = '>' then "&gt;".data
    else [ch]

/-- A token dict as produced by `nlp.tokenize` (the Python `end` key is named
`stop` here because `end` is a Lean keyword). -/
structure Token where
  surface : Str
  lemma_form : Str
  reading : Str
  lemma_reading : Str
  pos_tuple : List Str
  start : Nat
  stop : Nat
deriving DecidableEq

/-- Stable insertion of a token into a start-sorted list (an element is placed
before the first strictly-later-starting element, so original order is kept
among equal keys — the behaviour of Python's stable `sorted(key=start)`). -/
def insert_by_start (t : Token) : List Token → List Token
  | [] => [t]
  | u :: us => if u.start < t.start then u :: insert_by_start t us else t :: u :: us

/-- `sorted(tokens, key=lambda t: t['start'])`. -/
def sort_tokens : List Token → List Token
  | [] => []
  | t :: ts => insert_by_start t (sort_tokens ts)

/-- Per-token emission of `sentence_furigana`'s loop (furigana.py lines
226-237): the target lemma's token is copied bare, other kanji-bearing
tokens get `expression_furigana`, anything else is copied as-is. -/
def render_token_plain (surface reading lem target : Str) : Str :=
  if lem = target then surface
  else if has_kanji surface then expression_furigana surface reading
  else surface

/-- The cursor loop of `sentence_furigana` (furigana.py lines 212-245):
gap characters are copied, overlapping tokens are skipped, and the tail of
the sentence is copied at the end. -/
def sentence_furigana_go (sentence target : Str) : Nat → List Token → Str
  | pos, [] => sentence.drop pos
  | pos, tok :: rest =>
    if tok.start < pos then sentence_furigana_go sentence target pos rest
    else
      (sentence.drop pos).take (tok.start - pos)
        ++ render_token_plain tok.surface tok.reading tok.lemma_form target
        ++ sentence_furigana_go sentence target tok.stop rest

/-- `furigana.sentence_furigana(sentence, tokens, target_lemma)`. -/
def sentence_furigana (sentence : Str) (tokens : List Token) (target : Str) : Str :=
  sentence_furigana_go sentence target 0 (sort_tokens tokens)

/-- The per-segment ruby markup built by `sentence_furigana_html`
(furigana.py lines 284-293). -/
def ruby_html (surface reading : Str) : Str :=
  cat ((align_furigana surface reading).map fun seg =>
    if seg.2 ≠ [] then
      "<ruby>".data ++ html_escape seg.1 ++ "<rt>".data ++ html_escape seg.2
        ++ "</rt></ruby>".data
    else html_escape seg.1)

/-- Per-token emission of `sentence_furigana_html`'s loop (furigana.py lines
282-304): kanji-bearing tokens get ruby markup, the target lemma's token is
additionally wrapped in b tags (WITH its ruby markup when it has kanji). -/
def render_token_html (surface reading lem target : Str) : Str :=
  if has_kanji surface then
    if lem = target then "<b>".data ++ ruby_html surface reading ++ "</b>".data
    else ruby_html surface reading
  else if lem = target then "<b>".data ++ html_escape surface ++ "</b>".data
  else html_escape surface

/-- The cursor loop of `sentence_furigana_html` (furigana.py lines 263-312). -/
def sentence_furigana_html_go (sentence target : Str) : Nat → List Token → Str
  | pos, [] => html_escape (sentence.drop pos)
  | pos, tok :: rest =>
    if tok.start < pos then sentence_furigana_html_go sentence target pos rest
    else
      html_escape ((sentence.drop pos).take (tok.start - pos))
        ++ render_token_html tok.surface tok.reading tok.lemma_form target
        ++ sentence_furigana_html_go sentence target tok.stop rest

/-- `furigana.sentence_furigana_html(sentence, tokens, target_lemma)`. -/
def sentence_furigana_html (sentence : Str) (tokens : List Token) (target : Str) : Str :=
  sentence_furigana_html_go sentence target 0 (sort_tokens tokens)

theorem cat_nil : cat [] = [] := rfl

theorem cat_cons (s : Str) (l : List Str) : cat (s :: l) = s ++ cat l := rfl

/-- The written-form text still owed by the alignment state: the reversed
pending kanji run, if any. -/
def pend_surface : Option Str → Str
  | none => []
  | some run => run.reverse

theorem alignGo_fst_cat (lemma_form : Str) : ∀ (pend : Option Str) (reading : Str),
    cat ((alignGo pend lemma_form reading).map Prod.fst) = pend_surface pend ++ lemma_form := by
  induction lemma_form with
  | nil => intro pend reading; cases pend <;> simp [alignGo, pend_surface, cat]
  | cons ch rest ih =>
    intro pend reading
    cases pend with
    | none =>
      by_cases h : is_kana ch
      · simp [alignGo, h, cat_cons, ih, pend_surface]
      · simpa [alignGo, h, pend_surface] using ih (some [ch]) reading
    | some run =>
      by_cases h : is_kana ch
      · cases hf : reading.tail.findIdx? (fun c => c == ch) with
        | none => simp [alignGo, h, List.drop_one, hf, cat_cons, pend_surface, ih]
        | some i => simp [alignGo, h, List.drop_one, hf, cat_cons, pend_surface, ih]
      · simpa [alignGo, h, pend_surface] using ih (some (ch :: run)) reading

/-- C3: for every lemma string and reading string, concatenating the text
segments (first components) of all pairs returned by
`_align_furigana(lemma, reading)`, in order, yields exactly the input lemma. -/
theorem align_furigana_segments_concat (lemma_form reading : Str) :
    cat ((align_furigana lemma_form reading).map Prod.fst) = lemma_form := by
  simpa [pend_surface] using alignGo_fst_cat lemma_form none reading

/-- C10: for every sentence string and target lemma, `sentence_furigana`
applied to an empty token list returns the sentence text verbatim. -/
theorem sentence_furigana_no_tokens_id (sentence target : Str) :
    sentence_furigana sentence [] target = sentence := by
  simp [sentence_furigana, sort_tokens, sentence_furigana_go]

/-- C2 counterexample: on the sentence 食べる with its own single token as the
target lemma, `sentence_furigana_html` renders the target token with its ruby
reading markup inside the bold tags — not "plain or bold only" as claimed:
the output differs from both the bold-only and the plain escaped rendering. -/
theorem sentence_furigana_html_target_keeps_ruby :
    sentence_furigana_html "食べる".data
        [⟨"食べる".data, "食べる".data, "たべる".data, "たべる".data, [], 0, 3⟩]
        "食べる".data = "<b><ruby>食<rt>た</rt></ruby>べる</b>".data ∧
    sentence_furigana_html "食べる".data
        [⟨"食べる".data, "食べる".data, "たべる".data, "たべる".data, [], 0, 3⟩]
        "食べる".data ≠ "<b>".data ++ html_escape "食べる".data ++ "</b>".data ∧
    sentence_furigana_html "食べる".data
        [⟨"食べる".data, "食べる".data, "たべる".data, "たべる".data, [], 0, 3⟩]
        "食べる".data ≠ html_escape "食べる".data := by decide

/-- C2 (amended): in `sentence_furigana` a token whose lemma equals the target
is emitted as its bare surface (no reading markup); in `sentence_furigana_html`
a target token containing kanji is emitted bold WITH its ruby reading markup,
a pure-kana target token is emitted bold without markup; in both variants
every non-target kanji-containing token is emitted with its reading markup. -/
theorem target_token_rendering (surface reading lem target : Str) :
    (lem = target → render_token_plain surface reading lem target = surface) ∧
    (lem = target → has_kanji surface = true →
      render_token_html surface reading lem target =
        "<b>".data ++ ruby_html surface reading ++ "</b>".data) ∧
    (lem = target → has_kanji surface = false →
      render_token_html surface reading lem target =
        "<b>".data ++ html_escape surface ++ "</b>".data) ∧
    (lem ≠ target → has_kanji surface = true →
      render_token_plain surface reading lem target = expression_furigana surface reading ∧
      render_token_html surface reading lem target = ruby_html surface reading) := by
  refine ⟨fun h => ?_, fun h hk => ?_, fun h hk => ?_, fun h hk => ?_⟩ <;>
    simp_all [render_token_plain, render_token_html]

theorem target_token_rendering_check :
    render_token_plain "食べる".data "たべる".data "食べる".data "食べる".data = "食べる".data ∧
    render_token_html "食べる".data "たべる".data "食べる".data "食べる".data =
      "<b>".data ++ ruby_html "食べる".data "たべる".data ++ "</b>".data ∧
    render_token_html "よう".data "よう".data "よう".data "よう".data =
      "<b>".data ++ html_escape "よう".data ++ "</b>".data ∧
    render_token_plain "学校".data "がっこう".data "学校".data "行く".data =
      expression_furigana "学校".data "がっこう".data :=
  ⟨(target_token_rendering "食べる".data "たべる".data "食べる".data "食べる".data).1 rfl,
   (target_token_rendering "食べる".data "たべる".data "食べる".data "食べる".data).2.1 rfl
     (by decide),
   (target_token_rendering "よう".data "よう".data "よう".data "よう".data).2.2.1 rfl
     (by decide),
   ((target_token_rendering "学校".data "がっこう".data "学校".data "行く".data).2.2.2
     (by decide) (by decide)).1⟩

/-- C6: `correct_surface_reading` returns the tokenizer surface reading
unchanged when the tokenizer lemma reading equals the canonical one, when
either stem length (reading length minus the lemma's trailing-kana count) is
≤ 0, or when the surface reading does not start with the tokenizer stem; only
otherwise does it replace the tokenizer stem prefix with the canonical stem. -/
theorem correct_surface_reading_spec (surface lem ssr slr jlr : Str) :
    (slr = jlr → correct_surface_reading surface lem ssr slr jlr = ssr) ∧
    ((slr.length : Int) - (kana_tail_len lem : Int) ≤ 0 ∨
        (jlr.length : Int) - (kana_tail_len lem : Int) ≤ 0 →
      correct_surface_reading surface lem ssr slr jlr = ssr) ∧
    (¬ py_startswith ssr
        (slr.take ((slr.length : Int) - (kana_tail_len lem : Int)).toNat) = true →
      correct_surface_reading surface lem ssr slr jlr = ssr) ∧
    (slr ≠ jlr →
     0 < (slr.length : Int) - (kana_tail_len lem : Int) →
     0 < (jlr.length : Int) - (kana_tail_len lem : Int) →
     py_startswith ssr
       (slr.take ((slr.length : Int) - (kana_tail_len lem : Int)).toNat) = true →
      correct_surface_reading surface lem ssr slr jlr =
        jlr.take ((jlr.length : Int) - (kana_tail_len lem : Int)).toNat
          ++ ssr.drop
              (slr.take ((slr.length : Int) - (kana_tail_len lem : Int)).toNat).length) := by
  refine ⟨?_, ?_, ?_, ?_⟩
  · intro h
    simp [correct_surface_reading, h]
  · intro h
    simp only [correct_surface_reading]
    split_ifs <;> rfl
  · intro h
    simp only [correct_surface_reading]
    split_ifs <;> rfl
  · intro hne hs hj hpre
    have hslr : slr ≠ [] := by
      intro he
      subst he
      simp only [List.length_nil, Nat.cast_zero, zero_sub] at hs
      omega
    have hjlr : jlr ≠ [] := by
      intro he
      subst he
      simp only [List.length_nil, Nat.cast_zero, zero_sub] at hj
      omega
    have hA : ¬ (jlr = [] ∨ slr = []) := by push_neg; exact ⟨hjlr, hslr⟩
    have hC : ¬ ((slr.length : Int) - (kana_tail_len lem : Int) ≤ 0 ∨
        (jlr.length : Int) - (kana_tail_len lem : Int) ≤ 0) := by
      push_neg
      exact ⟨hs, hj⟩
    have hD : ¬ ¬ py_startswith ssr
        (slr.take ((slr.length : Int) - (kana_tail_len lem : Int)).toNat) = true :=
      not_not_intro hpre
    simp only [correct_surface_reading]
    rw [if_neg hA, if_neg hne, if_neg hC, if_neg hD]

theorem correct_surface_reading_spec_check :
    correct_surface_reading "言った".data "言う".data "ゆった".data "ゆう".data "ゆう".data
        = "ゆった".data ∧
    correct_surface_reading "言った".data "言う".data "ゆった".data "ゆう".data "い".data
        = "ゆった".data ∧
    correct_surface_reading "言った".data "言う".data "あった".data "ゆう".data "いう".data
        = "あった".data ∧
    correct_surface_reading "言った".data "言う".data "ゆった".data "ゆう".data "いう".data
        = "いった".data :=
  ⟨(correct_surface_reading_spec "言った".data "言う".data "ゆった".data "ゆう".data
      "ゆう".data).1 rfl,
   (correct_surface_reading_spec "言った".data "言う".data "ゆった".data "ゆう".data
      "い".data).2.1 (by decide),
   (correct_surface_reading_spec "言った".data "言う".data "あった".data "ゆう".data
      "いう".data).2.2.1 (by decide),
   by
     have h := (correct_surface_reading_spec "言った".data "言う".data "ゆった".data
       "ゆう".data "いう".data).2.2.2 (by decide) (by decide) (by decide) (by decide)
     simpa using h⟩

/-- Helper for the Python set/dict-key model: keep first occurrences,
dropping anything already seen. -/
def dedupAux {α : Type} [DecidableEq α] (seen : List α) : List α → List α
  | [] => []
  | x :: xs => if x ∈ seen then dedupAux seen xs else x :: dedupAux (x :: seen) xs

/-- A Python set built from a list (also `dict.fromkeys` iteration order):
first occurrences, in encounter order. -/
def py_set_of {α : Type} [DecidableEq α] (l : List α) : List α := dedupAux [] l

/-- Python `set.add` on the duplicate-free-list set model. -/
def set_insert (s : List Str) (w : Str) : List Str := if w ∈ s then s else s ++ [w]

/-- Python `set.update(ws)`. -/
def set_union (s ws : List Str) : List Str := ws.foldl set_insert s

/-- The frequency table rows, term → rank (pipeline/frequency.py builds
the SQLite table; lookup returns the first matching row). -/
abbrev FreqDB := List (Str × Nat)

/-- `frequency.get_rank` (frequency.py lines 118-122): the `db is None` guard,
then `FrequencyDB.get_rank`, which returns the first matching row's rank or
the sentinel 999999. -/
def get_rank (db : Option FreqDB) (lemma_str : Str) : Nat :=
  match db with
  | none => 999999
  | some d => (d.lookup lemma_str).getD 999999

/-- Modelled from the spec: `frequency.get_best_reading(db, candidates)` is
called by `api._best_reading` and `furigana.apply_jitendex_readings`, but its
definition is missing from src/pipeline/frequency.py (only callers and doc
comments name it).  Spec §6 gives the Frequency Store interface
`best_reading(candidates) -> string | none`, and §4.3a says to query the
store for the most common — lowest-rank — reading among the candidates, the
query "yielding nothing" when there is nothing to pick from (no candidates,
or no store, mirroring the `db is None` guards of the sibling functions). -/
def get_best_reading (db : Option FreqDB) (candidates : List Str) : Option Str :=
  match db with
  | none => none
  | some _ =>
    match candidates with
    | [] => none
    | c :: cs =>
      some (cs.foldl (fun best x => if get_rank db x < get_rank db best then x else best) c)

/-- The dictionary keyed by term: each present term maps to its distinct kana
readings in row order (pipeline/dictionary.py DictionaryDB; presence of the
key means the term has at least one entry). -/
abbrev JitendexDB := List (Str × List Str)

/-- `dictionary.lookup_all_readings` (dictionary.py lines 488-495): [] on a
missing store, else the term's readings filtered non-empty and converted to
hiragana. -/
def lookup_all_readings (db : Option JitendexDB) (lemma_str : Str) : List Str :=
  match db with
  | none => []
  | some d => (((d.lookup lemma_str).getD []).filter (fun r => r ≠ [])).map kata_to_hira

/-- Truthiness of `dictionary.lookup` / membership in
`dictionary.lookup_terms_batch`: the term has a dictionary entry, and a
missing store yields nothing. -/
def lookup_exists (db : Option JitendexDB) (lemma_str : Str) : Bool :=
  match db with
  | none => false
  | some d => (d.lookup lemma_str).isSome

/-- `api._best_reading` (api.py lines 32-49): all Jitendex readings for the
lemma plus the SudachiPy reading, empty strings removed (`filter(None, ...)`)
and deduplicated preserving order (`dict.fromkeys`), resolved through the
frequency store with the tokenizer reading as fallback.  The Python fallback
is `or sudachi_reading`, which fires on a `None` query result (the candidates
are all non-empty strings, so a falsy non-None result cannot occur). -/
def best_reading (jdb : Option JitendexDB) (fdb : Option FreqDB)
    (lemma_str sudachi_reading : Str) : Str :=
  let jitendex_readings := lookup_all_readings jdb lemma_str
  let candidates :=
    py_set_of ((jitendex_readings ++ [sudachi_reading]).filter (fun r => r ≠ []))
  (get_best_reading fdb candidates).getD sudachi_reading

/-- C1: `_best_reading` is total (it always produces a string), and it
returns the tokenizer-reported reading both on an empty candidate list and
whenever the frequency-store query yields nothing. -/
theorem best_reading_fallback (jdb : Option JitendexDB) (fdb : Option FreqDB)
    (lemma_str sudachi_reading : Str) :
    (py_set_of (((lookup_all_readings jdb lemma_str) ++ [sudachi_reading]).filter
        (fun r => r ≠ [])) = [] →
      best_reading jdb fdb lemma_str sudachi_reading = sudachi_reading) ∧
    (get_best_reading fdb (py_set_of (((lookup_all_readings jdb lemma_str)
        ++ [sudachi_reading]).filter (fun r => r ≠ []))) = none →
      best_reading jdb fdb lemma_str sudachi_reading = sudachi_reading) := by
  constructor
  · intro h
    simp only [best_reading, h]
    cases fdb <;> simp [get_best_reading]
  · intro h
    simp only [best_reading, h]
    rfl

theorem best_reading_fallback_check :
    best_reading none none "言う".data [] = [] ∧
    best_reading none none "言う".data "ゆう".data = "ゆう".data :=
  ⟨(best_reading_fallback none none "言う".data []).1 (by decide),
   (best_reading_fallback none none "言う".data "ゆう".data).2 (by decide)⟩

/-- `nlp._SKIP_LEMMAS`: grammar-only lemmas that slip through POS filtering. -/
def SKIP_LEMMAS : List Str :=
  ["する".data, "いる".data, "ある".data, "なる".data, "です".data, "ます".data,
   "くる".data, "くれる".data, "もらう".data, "あげる".data, "ない".data]

/-- `nlp._SKIP_POS`: grammar-only main POS categories. -/
def SKIP_POS : List Str :=
  ["助詞".data, "助動詞".data, "接続詞".data, "感動詞".data,
   "記号".data, "補助記号".data, "空白".data, "フィラー".data]

/-- `nlp._is_all_ascii`. -/
def is_all_ascii (text : Str) : Bool := text.all (fun ch => ch.toNat < 128)

/-- `nlp.should_skip` (nlp.py lines 58-90): True iff the token must not be
mined.  `pos_main` is `pos_tuple[0] if pos_tuple else ''` and `pos_sub` is
`pos_tuple[1] if len(pos_tuple) > 1 else ''`. -/
def should_skip (surface lemma_str : Str) (pos_tuple : List Str) : Bool :=
  let pos_main := pos_tuple.headD []
  let pos_sub := (pos_tuple.drop 1).headD []
  if ¬ has_kanji lemma_str then true
  else if pos_sub = "固有名詞".data then true
  else if is_all_ascii surface then true
  else if pos_main ∈ SKIP_POS then true
  else if lemma_str.length < 2 then true
  else if lemma_str ∈ SKIP_LEMMAS then true
  else false

theorem should_skip_eq_false {surface lemma_str : Str} {pos_tuple : List Str}
    (h : should_skip surface lemma_str pos_tuple = false) :
    has_kanji lemma_str = true ∧ lemma_str ∉ SKIP_LEMMAS := by
  simp only [should_skip] at h
  split_ifs at h with h1 h2 h3 h4 h5 h6 <;> simp_all

/-- A sentence unit as built in api.py STEP 2: text plus optional timing. -/
structure Sentence where
  text : Str
  start_ms : Option Int
  end_ms : Option Int
deriving DecidableEq

/-- One occurrence dict appended to `candidates[lemma]` (api.py lines 375-381). -/
structure Occ where
  text : Str
  start_ms : Option Int
  end_ms : Option Int
  token : Token
  rank : Nat
deriving DecidableEq

/-- The settings fields the collector reads. -/
structure MiningSettings where
  allow_duplicates : Bool
  freq_threshold : Nat
deriving DecidableEq

/-- `candidates[lemma].append(occ)`, creating the key on first use (api.py
lines 372-381); the candidates dict is insertion-ordered, modelled as an
association list. -/
def add_occ (cands : List (Str × List Occ)) (lemma_str : Str) (occ : Occ) :
    List (Str × List Occ) :=
  if lemma_str ∈ cands.map Prod.fst then
    cands.map (fun p => if p.1 = lemma_str then (p.1, p.2 ++ [occ]) else p)
  else cands ++ [(lemma_str, [occ])]

/-- The body of the token loop of `Api._process_thread` STEP 3 (api.py lines
351-381).  State: (candidates, freq_skipped_words). -/
def collect_token (s : MiningSettings) (known : List Str) (jdb : Option JitendexDB)
    (fdb : Option FreqDB) (sent : Sentence)
    (st : List (Str × List Occ) × List Str) (tok : Token) :
    List (Str × List Occ) × List Str :=
  if should_skip tok.surface tok.lemma_form tok.pos_tuple then st
  else if ¬ s.allow_duplicates ∧ tok.lemma_form ∈ known then st
  else
    let rank := get_rank fdb tok.lemma_form
    if ¬ lookup_exists jdb tok.lemma_form then (st.1, set_insert st.2 tok.lemma_form)
    else if s.freq_threshold < rank then (st.1, set_insert st.2 tok.lemma_form)
    else
      (add_occ st.1 tok.lemma_form ⟨sent.text, sent.start_ms, sent.end_ms, tok, rank⟩, st.2)

/-- STEP 3 of `Api._process_thread`: scan every sentence and collect the
candidates map and the "too rare" lemma set.  Tokenization is the external
Token Source, passed as a function. -/
def collect_candidates (tokenize : Str → List Token) (s : MiningSettings)
    (known : List Str) (jdb : Option JitendexDB) (fdb : Option FreqDB)
    (sentences : List Sentence) : List (Str × List Occ) × List Str :=
  sentences.foldl
    (fun st sent => (tokenize sent.text).foldl (collect_token s known jdb fdb sent) st)
    ([], [])

/-- The body of the token loop of `Api.scan_candidates` phase 2a (api.py lines
788-805): like the mining collector, with the dictionary check deferred to
phase 2b and no "too rare" reporting set. -/
def scan_token (s : MiningSettings) (known : List Str) (fdb : Option FreqDB)
    (sent : Sentence) (st : List (Str × List Occ)) (tok : Token) :
    List (Str × List Occ) :=
  if should_skip tok.surface tok.lemma_form tok.pos_tuple then st
  else if ¬ s.allow_duplicates ∧ tok.lemma_form ∈ known then st
  else
    let rank := get_rank fdb tok.lemma_form
    if s.freq_threshold < rank then st
    else add_occ st tok.lemma_form ⟨sent.text, sent.start_ms, sent.end_ms, tok, rank⟩

/-- `Api.scan_candidates` phases 2a+2b (api.py lines 779-814): build
`freq_passing`, then keep the lemmas that exist in the dictionary
(`lookup_terms_batch`), preserving insertion order. -/
def scan_collect (tokenize : Str → List Token) (s : MiningSettings)
    (known : List Str) (jdb : Option JitendexDB) (fdb : Option FreqDB)
    (sentences : List Sentence) : List (Str × List Occ) :=
  let freq_passing := sentences.foldl
    (fun st sent => (tokenize sent.text).foldl (scan_token s known fdb sent) st) []
  freq_passing.filter (fun p => lookup_exists jdb p.1)

theorem mem_keys_add_occ {cands : List (Str × List Occ)} {lemma_str : Str} {occ : Occ}
    {l : Str} (hm : l ∈ (add_occ cands lemma_str occ).map Prod.fst) :
    l ∈ cands.map Prod.fst ∨ l = lemma_str := by
  unfold add_occ at hm
  split_ifs at hm with h
  · left
    have hkeys :
        (cands.map (fun p => if p.1 = lemma_str then (p.1, p.2 ++ [occ]) else p)).map
          Prod.fst = cands.map Prod.fst := by
      rw [List.map_map]
      apply List.map_congr_left
      intro p _
      by_cases hp : p.1 = lemma_str <;> simp [hp]
    rwa [hkeys] at hm
  · rw [List.map_append] at hm
    rcases List.mem_append.mp hm with h1 | h2
    · exact Or.inl h1
    · simp only [List.map_cons, List.map_nil, List.mem_singleton] at h2
      exact Or.inr h2

theorem collect_token_keys {s : MiningSettings} {known : List Str}
    {jdb : Option JitendexDB} {fdb : Option FreqDB} {sent : Sentence}
    {st : List (Str × List Occ) × List Str} {tok : Token} {l : Str}
    (hm : l ∈ (collect_token s known jdb fdb sent st tok).1.map Prod.fst) :
    l ∈ st.1.map Prod.fst ∨
      (l = tok.lemma_form ∧ should_skip tok.surface tok.lemma_form tok.pos_tuple = false) := by
  simp only [collect_token] at hm
  split_ifs at hm with h1 h2 h3 h4 <;>
    first
      | exact Or.inl hm
      | exact (mem_keys_add_occ hm).imp id fun he => ⟨he, by simpa using h1⟩

theorem scan_token_keys {s : MiningSettings} {known : List Str}
    {fdb : Option FreqDB} {sent : Sentence}
    {st : List (Str × List Occ)} {tok : Token} {l : Str}
    (hm : l ∈ (scan_token s known fdb sent st tok).map Prod.fst) :
    l ∈ st.map Prod.fst ∨
      (l = tok.lemma_form ∧ should_skip tok.surface tok.lemma_form tok.pos_tuple = false) := by
  simp only [scan_token] at hm
  split_ifs at hm with h1 h2 h3 <;>
    first
      | exact Or.inl hm
      | exact (mem_keys_add_occ hm).imp id fun he => ⟨he, by simpa using h1⟩

theorem collect_token_fold_good (s : MiningSettings) (known : List Str)
    (jdb : Option JitendexDB) (fdb : Option FreqDB) (sent : Sentence) :
    ∀ (toks : List Token) (st : List (Str × List Occ) × List Str),
      (∀ l ∈ st.1.map Prod.fst, has_kanji l = true ∧ l ∉ SKIP_LEMMAS) →
      ∀ l ∈ (toks.foldl (collect_token s known jdb fdb sent) st).1.map Prod.fst,
        has_kanji l = true ∧ l ∉ SKIP_LEMMAS := by
  intro toks
  induction toks with
  | nil => intro st h; simpa using h
  | cons t ts ih =>
    intro st h
    apply ih
    intro l hl
    rcases collect_token_keys hl with hk | ⟨he, hs⟩
    · exact h l hk
    · subst he
      exact should_skip_eq_false hs

theorem scan_token_fold_good (s : MiningSettings) (known : List Str)
    (fdb : Option FreqDB) (sent : Sentence) :
    ∀ (toks : List Token) (st : List (Str × List Occ)),
      (∀ l ∈ st.map Prod.fst, has_kanji l = true ∧ l ∉ SKIP_LEMMAS) →
      ∀ l ∈ (toks.foldl (scan_token s known fdb sent) st).map Prod.fst,
        has_kanji l = true ∧ l ∉ SKIP_LEMMAS := by
  intro toks
  induction toks with
  | nil => intro st h; simpa using h
  | cons t ts ih =>
    intro st h
    apply ih
    intro l hl
    rcases scan_token_keys hl with hk | ⟨he, hs⟩
    · exact h l hk
    · subst he
      exact should_skip_eq_false hs

/-- C7: every lemma accepted into the candidates map — by the mining
collector of `_process_thread` STEP 3 and by the scan collector of
`scan_candidates` alike — contains at least one ideographic character and is
not in the fixed grammar skip-list of common light verbs/auxiliaries. -/
theorem candidates_lemmas_minable (tokenize : Str → List Token) (s : MiningSettings)
    (known : List Str) (jdb : Option JitendexDB) (fdb : Option FreqDB)
    (sentences : List Sentence) :
    (∀ l ∈ (collect_candidates tokenize s known jdb fdb sentences).1.map Prod.fst,
      has_kanji l = true ∧ l ∉ SKIP_LEMMAS) ∧
    (∀ l ∈ (scan_collect tokenize s known jdb fdb sentences).map Prod.fst,
      has_kanji l = true ∧ l ∉ SKIP_LEMMAS) := by
  constructor
  · have main : ∀ (ss : List Sentence) (st : List (Str × List Occ) × List Str),
        (∀ l ∈ st.1.map Prod.fst, has_kanji l = true ∧ l ∉ SKIP_LEMMAS) →
        ∀ l ∈ (ss.foldl
            (fun st sent => (tokenize sent.text).foldl (collect_token s known jdb fdb sent) st)
            st).1.map Prod.fst,
          has_kanji l = true ∧ l ∉ SKIP_LEMMAS := by
      intro ss
      induction ss with
      | nil => intro st h; simpa using h
      | cons sent rest ih =>
        intro st h
        exact ih _ (collect_token_fold_good s known jdb fdb sent _ st h)
    exact main sentences ([], []) (by simp)
  · have main : ∀ (ss : List Sentence) (st : List (Str × List Occ)),
        (∀ l ∈ st.map Prod.fst, has_kanji l = true ∧ l ∉ SKIP_LEMMAS) →
        ∀ l ∈ (ss.foldl
            (fun st sent => (tokenize sent.text).foldl (scan_token s known fdb sent) st)
            st).map Prod.fst,
          has_kanji l = true ∧ l ∉ SKIP_LEMMAS := by
      intro ss
      induction ss with
      | nil => intro st h; simpa using h
      | cons sent rest ih =>
        intro st h
        exact ih _ (scan_token_fold_good s known fdb sent _ st h)
    intro l hl
    simp only [scan_collect, List.mem_map] at hl
    obtain ⟨p, hp, rfl⟩ := hl
    exact main sentences [] (by simp) p.1 (List.mem_map_of_mem Prod.fst (List.mem_of_mem_filter hp))

theorem candidates_lemmas_minable_check :
    has_kanji "言葉".data = true ∧ "言葉".data ∉ SKIP_LEMMAS :=
  (candidates_lemmas_minable
    (fun _ => [⟨"言葉".data, "言葉".data, "ことば".data, "ことば".data,
      ["名詞".data, "普通名詞".data], 0, 2⟩])
    ⟨false, 10000⟩ [] (some [("言葉".data, ["ことば".data])]) (some [("言葉".data, 5)])
    [⟨"言葉".data, none, none⟩]).1 "言葉".data (by decide)

/-- One Anki note-type target: its name (the `note:"..."` query key), the
note ids `findNotes` reports for it, and the plain-text value that
`notesInfo` + `_extract_field_value` produce per note id (ids with a missing
or stripped-to-empty field map to the empty string). -/
structure NoteType where
  name : Str
  ids : List Nat
  vals : List (Nat × Str)
deriving DecidableEq

/-- `anki._fetch_expressions_for_type` (anki.py lines 103-138): fetch the
chosen ids — the type's full id list on a full fetch, `only_ids` on an
incremental one — collect the set of non-empty extracted values, and report
the largest fetched id (0 when nothing was fetched). -/
def fetch_expressions_for_type (t : NoteType) (only_ids : Option (List Nat)) :
    List Str × Nat :=
  let note_ids := only_ids.getD t.ids
  if note_ids.isEmpty then ([], 0)
  else
    (py_set_of ((note_ids.map fun nid => (t.vals.lookup nid).getD []).filter
        fun v => v ≠ []),
      note_ids.foldl max 0)

/-- What `get_all_known_expressions` computes, persists via `_save_cache`,
and returns: the merged expression set, the saved `note_count` and the saved
high-water mark. -/
structure FetchOutcome where
  words : List Str
  note_count : Nat
  max_note_id : Nat
deriving DecidableEq

/-- `anki.get_all_known_expressions` (anki.py lines 178-233): one fetch per
target note type (the threads are joined and then merged per note-type key,
which with distinct type names is the targets in order), merged into
`base_words`; `total_notes` accumulates the SIZE of each per-type word set,
and `_save_cache(expressions, total_notes, global_max_id)` persists the
result. -/
def get_all_known_expressions (targets : List NoteType)
    (incremental_ids : Option (List (Str × List Nat)))
    (base_words : Option (List Str)) : FetchOutcome :=
  let base := base_words.getD []
  let results := targets.map fun t =>
    fetch_expressions_for_type t ((incremental_ids.getD []).lookup t.name)
  ⟨results.foldl (fun acc r => set_union acc r.1) base,
    (results.map fun r => r.1.length).sum,
    results.foldl (fun acc r => max acc r.2) 0⟩

/-- Which branch one background `_refresh` run took. -/
inductive RefreshKind where
  | unchanged
  | no_new_ids
  | incremental
  | full
deriving DecidableEq

/-- Observable outcome of one `_refresh` run of
`get_known_expressions_fast`: the branch taken, every member-record id
fetched through `notesInfo`, the resulting word set, and what was persisted
(if anything). -/
structure RefreshOutcome where
  kind : RefreshKind
  requested : List Nat
  final_words : List Str
  saved : Option FetchOutcome
deriving DecidableEq

/-- The background-refresh logic of `anki.get_known_expressions_fast`
(anki.py lines 257-306), with the remote state explicit: `targets` carries
the per-type `findNotes` results and field values; the combined OR count
query returns all the per-type ids together (an Anki note has exactly one
note type).  `requested` records, per target type, exactly the note-id list
`_fetch_expressions_for_type` fetches through `notesInfo`
(`only_ids.getD t.ids`): in the incremental branch, `incremental_ids` only
holds the types that have new ids (anki.py lines 285-289), and every target
type ABSENT from it gets `only_ids=None` inside
`get_all_known_expressions`, i.e. a full `findNotes` + `notesInfo` re-fetch
of that whole type (anki.py lines 113-127) — so its entire id list is
requested, high-water mark notwithstanding. -/
def background_refresh (cached_words : List Str) (cached_count cached_max_id : Nat)
    (targets : List NoteType) : RefreshOutcome :=
  let all_ids := targets.flatMap fun t => t.ids
  let current_count := all_ids.length
  let delta : Int := (current_count : Int) - (cached_count : Int)
  if delta.natAbs < 5 ∧ cached_words ≠ [] then
    ⟨.unchanged, [], cached_words, none⟩
  else if 0 < delta ∧ cached_words ≠ [] ∧ 0 < cached_max_id then
    let all_new_ids := all_ids.filter fun nid => cached_max_id < nid
    if all_new_ids.isEmpty then ⟨.no_new_ids, [], cached_words, none⟩
    else
      let inc := targets.filterMap fun t =>
        let new_for_type := t.ids.filter fun nid => cached_max_id < nid
        if new_for_type.isEmpty then none else some (t.name, new_for_type)
      let r := get_all_known_expressions targets (some inc) (some cached_words)
      ⟨.incremental, targets.flatMap (fun t => (inc.lookup t.name).getD t.ids),
        r.words, some r⟩
  else
    let r := get_all_known_expressions targets none none
    ⟨.full, targets.flatMap (fun t => t.ids), r.words, some r⟩

/-- C4 counterexample: a cache state the code itself can produce (every
fetched note field empty, so words = ∅ and note_count = 0 while
max_note_id = 7 > 0), with the remote count exceeding the cached count by
exactly 3, takes the FULL-refresh branch and requests member records whose
identifiers do not exceed the high-water mark. -/
theorem background_refresh_empty_cache_full :
    (([⟨"Kiku".data, [1, 2, 3], []⟩] : List NoteType).flatMap NoteType.ids).length = 0 + 3 ∧
    (background_refresh [] 0 7 [⟨"Kiku".data, [1, 2, 3], []⟩]).kind = RefreshKind.full ∧
    1 ∈ (background_refresh [] 0 7 [⟨"Kiku".data, [1, 2, 3], []⟩]).requested ∧
    ¬ 7 < 1 := by decide

/-- C4 (amended): for every cached state with a NON-EMPTY cached word set, a
non-zero high-water mark, and a remote note count exceeding the cached count
by 3, the background refresh never performs a full re-fetch, any member
records it requests have identifiers above the cached high-water mark (in
fact it requests none: a delta of +3 is under the unchanged threshold of 5),
and the cached word set is kept, not replaced. -/
theorem background_refresh_delta3_no_full (cached_words : List Str)
    (cached_count cached_max_id : Nat) (targets : List NoteType)
    (hw : cached_words ≠ []) (hm : 0 < cached_max_id)
    (hd : ((targets.flatMap fun t => t.ids)).length = cached_count + 3) :
    (background_refresh cached_words cached_count cached_max_id targets).kind ≠
        RefreshKind.full ∧
    (∀ nid ∈ (background_refresh cached_words cached_count cached_max_id targets).requested,
        cached_max_id < nid) ∧
    (∀ w ∈ cached_words,
        w ∈ (background_refresh cached_words cached_count cached_max_id targets).final_words) := by
  have hcond : ((((targets.flatMap fun t => t.ids)).length : Int) -
      (cached_count : Int)).natAbs < 5 ∧ cached_words ≠ [] := by
    refine ⟨?_, hw⟩
    rw [hd]
    omega
  simp only [background_refresh]
  rw [if_pos hcond]
  exact ⟨by simp, by simp, fun w hwm => hwm⟩

theorem background_refresh_delta3_no_full_check :
    (background_refresh ["あ".data] 0 1 [⟨"Kiku".data, [1, 2, 3], []⟩]).kind ≠
        RefreshKind.full ∧
    (∀ nid ∈ (background_refresh ["あ".data] 0 1 [⟨"Kiku".data, [1, 2, 3], []⟩]).requested,
        1 < nid) ∧
    (∀ w ∈ ["あ".data],
        w ∈ (background_refresh ["あ".data] 0 1 [⟨"Kiku".data, [1, 2, 3], []⟩]).final_words) :=
  background_refresh_delta3_no_full ["あ".data] 0 1 [⟨"Kiku".data, [1, 2, 3], []⟩]
    (by decide) (by decide) (by decide)

/-- The number of distinct non-empty extracted field values among the given
note ids of one note type — what the spec calls the per-type word-set size. -/
def distinct_vals_count (t : NoteType) (note_ids : List Nat) : Nat :=
  (py_set_of ((note_ids.map fun nid => (t.vals.lookup nid).getD []).filter
    fun v => v ≠ [])).length

theorem fetch_words_length (t : NoteType) (only_ids : Option (List Nat)) :
    (fetch_expressions_for_type t only_ids).1.length =
      distinct_vals_count t (only_ids.getD t.ids) := by
  by_cases h : (only_ids.getD t.ids).isEmpty
  · have he : only_ids.getD t.ids = [] := by simpa using h
    simp [fetch_expressions_for_type, distinct_vals_count, he, py_set_of, dedupAux]
  · simp [fetch_expressions_for_type, distinct_vals_count, h]

/-- C9: the note_count a reconciliation persists equals the sum over target
note types of the number of distinct non-empty extracted field values (the
per-type word-set sizes), not the number of remote notes fetched; a target
whose 3 notes all carry the same expression persists note_count 1, strictly
smaller than the remote note count the next refresh's delta computation
compares it against. -/
theorem saved_note_count_distinct_vals :
    (∀ (targets : List NoteType) (incremental_ids : Option (List (Str × List Nat)))
        (base_words : Option (List Str)),
      (get_all_known_expressions targets incremental_ids base_words).note_count =
        (targets.map fun t =>
          distinct_vals_count t
            (((incremental_ids.getD []).lookup t.name).getD t.ids)).sum) ∧
    ((get_all_known_expressions
        [⟨"Kiku".data, [1, 2, 3], [(1, "語".data), (2, "語".data), (3, "語".data)]⟩]
        none none).note_count = 1 ∧
      (([⟨"Kiku".data, [1, 2, 3], [(1, "語".data), (2, "語".data), (3, "語".data)]⟩] :
          List NoteType).flatMap NoteType.ids).length = 3 ∧
      (get_all_known_expressions
        [⟨"Kiku".data, [1, 2, 3], [(1, "語".data), (2, "語".data), (3, "語".data)]⟩]
        none none).note_count <
        (([⟨"Kiku".data, [1, 2, 3], [(1, "語".data), (2, "語".data), (3, "語".data)]⟩] :
          List NoteType).flatMap NoteType.ids).length) := by
  constructor
  · intro targets incremental_ids base_words
    simp only [get_all_known_expressions, List.map_map]
    congr 1
    apply List.map_congr_left
    intro t _
    exact fetch_words_length t _
  · exact ⟨by decide, by decide, by decide⟩

/-- The on-disk JSON cache object (anki.py lines 78-83). -/
structure CacheFile where
  words : List Str
  note_count : Nat
  max_note_id : Nat
  cache_version : Nat
deriving DecidableEq

/-- `anki._save_cache` (anki.py lines 73-86): `list(words)` plus the two
counters and the format version. -/
def save_cache (words : List Str) (note_count : Nat) (max_note_id : Nat) : CacheFile :=
  ⟨words, note_count, max_note_id, 2⟩

/-- `anki._load_cache` (anki.py lines 49-70) on a present, well-formed file:
`set(data['words'])`, `note_count`, `max_note_id` (staleness only logs). -/
def load_cache (f : CacheFile) : List Str × Nat × Nat :=
  (py_set_of f.words, f.note_count, f.max_note_id)

theorem mem_dedupAux {α : Type} [DecidableEq α] (x : α) :
    ∀ (l seen : List α), x ∈ dedupAux seen l ↔ x ∈ l ∧ x ∉ seen := by
  intro l
  induction l with
  | nil => intro seen; simp [dedupAux]
  | cons y ys ih =>
    intro seen
    by_cases hy : y ∈ seen
    · rw [dedupAux, if_pos hy, ih seen]
      simp only [List.mem_cons]
      constructor
      · rintro ⟨h1, h2⟩
        exact ⟨Or.inr h1, h2⟩
      · rintro ⟨h1 | h1, h2⟩
        · subst h1; exact absurd hy h2
        · exact ⟨h1, h2⟩
    · rw [dedupAux, if_neg hy]
      simp only [List.mem_cons, ih (y :: seen)]
      constructor
      · rintro (h | ⟨h1, h2⟩)
        · subst h; exact ⟨Or.inl rfl, hy⟩
        · exact ⟨Or.inr h1, fun hs => h2 (Or.inr hs)⟩
      · rintro ⟨h1 | h1, h2⟩
        · exact Or.inl h1
        · by_cases hxy : x = y
          · exact Or.inl hxy
          · exact Or.inr ⟨h1, fun hc => hc.elim hxy h2⟩

/-- C8: saving a cache record to disk and loading it back yields the same
word set (same membership), the same note count, and the same high-water
mark. -/
theorem cache_round_trip (words : List Str) (note_count max_note_id : Nat) :
    (∀ w, w ∈ (load_cache (save_cache words note_count max_note_id)).1 ↔ w ∈ words) ∧
    (load_cache (save_cache words note_count max_note_id)).2.1 = note_count ∧
    (load_cache (save_cache words note_count max_note_id)).2.2 = max_note_id := by
  refine ⟨fun w => ?_, rfl, rfl⟩
  simp [load_cache, save_cache, py_set_of, mem_dedupAux]

/-- A note dict as submitted to `addNotes` (api.py lines 673-682). -/
structure NoteDict where
  deckName : Str
  modelName : Str
  fields : List (Str × Str)
  tags : List Str
deriving DecidableEq

/-- The remote's response to one `addNotes` call. -/
inductive AddNotesResp where
  | failed
  | nullResult
  | ok (outcomes : List (Option Nat))
deriving DecidableEq

/-- `anki.add_notes_batch` (anki.py lines 406-427), with the remote call's
response explicit: an empty batch short-circuits to []; a transport error or
a null result yields one None per submitted note; otherwise the remote's
per-note outcome list is returned as-is. -/
def add_notes_batch (notes : List NoteDict) (resp : AddNotesResp) : List (Option Nat) :=
  if notes.isEmpty then []
  else
    match resp with
    | .failed => List.replicate notes.length none
    | .nullResult => List.replicate notes.length none
    | .ok outcomes => outcomes

/-- One `(lemma, reading, rank, fields)` entry of `pending` built by
`_process_thread` Phase 1 (api.py line 458). -/
structure PendingNote where
  lemma_str : Str
  reading : Str
  rank : Nat
  fields : List (Str × Str)
deriving DecidableEq

/-- Phase 3 of `Api._process_thread` (api.py lines 689-703):
`zip(pending, note_ids)`; a None outcome counts a skip and logs, an assigned
id adds the lemma to the in-memory known-word set and counts an add. -/
def process_outcomes (known : List Str) (added skipped_known : Nat) :
    List PendingNote → List (Option Nat) → List Str × Nat × Nat
  | [], _ => (known, added, skipped_known)
  | _ :: _, [] => (known, added, skipped_known)
  | _ :: ps, none :: os => process_outcomes known added (skipped_known + 1) ps os
  | p :: ps, some _ :: os =>
    process_outcomes (set_insert known p.lemma_str) (added + 1) skipped_known ps os

/-- The lemmas of the pending notes the batch accepted (outcome not None), in
submission order. -/
def accepted_lemmas : List PendingNote → List (Option Nat) → List Str
  | [], _ => []
  | _ :: _, [] => []
  | _ :: ps, none :: os => accepted_lemmas ps os
  | p :: ps, some _ :: os => p.lemma_str :: accepted_lemmas ps os

/-- The number of rejected (None) outcomes paired with a pending note. -/
def rejected_count : List PendingNote → List (Option Nat) → Nat
  | [], _ => 0
  | _ :: _, [] => 0
  | _ :: ps, none :: os => rejected_count ps os + 1
  | _ :: ps, some _ :: os => rejected_count ps os

theorem mem_set_insert {s : List Str} {x w : Str} :
    w ∈ set_insert s x ↔ w ∈ s ∨ w = x := by
  unfold set_insert
  split_ifs with h
  · constructor
    · exact Or.inl
    · rintro (hw | rfl)
      · exact hw
      · exact h
  · simp

theorem mem_set_union {ws : List Str} : ∀ {s : List Str} {w : Str},
    w ∈ set_union s ws ↔ w ∈ s ∨ w ∈ ws := by
  induction ws with
  | nil => intro s w; simp [set_union]
  | cons x xs ih =>
    intro s w
    have h1 : set_union s (x :: xs) = set_union (set_insert s x) xs := rfl
    rw [h1, ih, mem_set_insert]
    simp only [List.mem_cons]
    tauto

theorem process_outcomes_eq :
    ∀ (ps : List PendingNote) (os : List (Option Nat)) (known : List Str) (a s : Nat),
      process_outcomes known a s ps os =
        (set_union known (accepted_lemmas ps os),
          a + (accepted_lemmas ps os).length,
          s + rejected_count ps os) := by
  intro ps
  induction ps with
  | nil =>
    intro os known a s
    cases os <;> simp [process_outcomes, accepted_lemmas, rejected_count, set_union]
  | cons p pr ih =>
    intro os known a s
    cases os with
    | nil => simp [process_outcomes, accepted_lemmas, rejected_count, set_union]
    | cons o or =>
      cases o with
      | none =>
        simp only [process_outcomes, accepted_lemmas, rejected_count]
        rw [ih]
        have h3 : s + 1 + rejected_count pr or = s + (rejected_count pr or + 1) := by omega
        rw [h3]
      | some v =>
        simp only [process_outcomes, accepted_lemmas, rejected_count, List.length_cons]
        rw [ih]
        have h2 : a + 1 + (accepted_lemmas pr or).length =
            a + ((accepted_lemmas pr or).length + 1) := by omega
        rw [h2]
        rfl

/-- C5: the outcome list of the batch commit always has exactly the length
of the submitted record list (given the remote's documented one-outcome-per-
note contract on a successful call), and in outcome processing a None
(rejected) outcome never adds its lemma to the known-word set and counts a
skip, while a non-None (accepted) outcome adds exactly its lemma and counts
an add. -/
theorem batch_commit_outcomes :
    (∀ (notes : List NoteDict) (resp : AddNotesResp),
      (∀ outcomes, resp = AddNotesResp.ok outcomes → outcomes.length = notes.length) →
      (add_notes_batch notes resp).length = notes.length) ∧
    (∀ (pending : List PendingNote) (outcomes : List (Option Nat)) (known : List Str),
      (∀ w, w ∈ (process_outcomes known 0 0 pending outcomes).1 ↔
        w ∈ known ∨ w ∈ accepted_lemmas pending outcomes) ∧
      (process_outcomes known 0 0 pending outcomes).2.1 =
        (accepted_lemmas pending outcomes).length ∧
      (process_outcomes known 0 0 pending outcomes).2.2 =
        rejected_count pending outcomes) := by
  constructor
  · intro notes resp h
    by_cases he : notes.isEmpty
    · have he2 : notes = [] := by simpa using he
      subst he2
      cases resp <;> simp [add_notes_batch]
    · cases resp with
      | failed => simp [add_notes_batch, he]
      | nullResult => simp [add_notes_batch, he]
      | ok outcomes =>
        simp only [add_notes_batch, if_neg he]
        exact h outcomes rfl
  · intro pending outcomes known
    refine ⟨fun w => ?_, ?_, ?_⟩
    · rw [process_outcomes_eq]
      exact mem_set_union
    · rw [process_outcomes_eq]
      simp
    · rw [process_outcomes_eq]
      simp

theorem batch_commit_outcomes_check :
    (add_notes_batch [] AddNotesResp.failed).length = ([] : List NoteDict).length ∧
    (process_outcomes [] 0 0
        [⟨"語".data, "ご".data, 1, []⟩, ⟨"水".data, "みず".data, 2, []⟩]
        [some 5, none]).2.1 = 1 ∧
    (process_outcomes [] 0 0
        [⟨"語".data, "ご".data, 1, []⟩, ⟨"水".data, "みず".data, 2, []⟩]
        [some 5, none]).2.2 = 1 :=
  ⟨batch_commit_outcomes.1 [] AddNotesResp.failed
      (fun outcomes h => AddNotesResp.noConfusion h),
   by
     have h := (batch_commit_outcomes.2
       [⟨"語".data, "ご".data, 1, []⟩, ⟨"水".data, "みず".data, 2, []⟩]
       [some 5, none] []).2.1
     simpa using h,
   by
     have h := (batch_commit_outcomes.2
       [⟨"語".data, "ご".data, 1, []⟩, ⟨"水".data, "みず".data, 2, []⟩]
       [some 5, none] []).2.2
     simpa using h⟩

end SentenceMiner
